import Mathlib

/-!
# Verification of the fitness-tracker core against its specification

This file gives a shallow embedding, in Lean 4, of the algorithmic core of a
small glucose / body-stats tracking web application, and proves (or refutes)
the specification's claims about it.

Conventions of the embedding:
* JavaScript numbers that hold integral epoch-milliseconds are modelled as `ℤ`;
  glucose values and match scores are modelled as `ℚ` (all arithmetic actually
  performed by the program on these quantities is exact in ℚ at the involved
  magnitudes).
* `Number.prototype.toFixed(0)` on the non-negative values involved rounds to
  the nearest integer, half away from zero upward (ECMA-262: "pick the larger
  n" on ties), i.e. `⌊q + 1/2⌋`.
* JavaScript strings are modelled as `List Char`; the normalization regexes of
  the classifier are modelled by equivalent explicit scans (leftmost-match,
  `$`-anchored semantics traced by hand, see the individual definitions).
* `Date` timestamps are modelled by their epoch-millisecond value; UTC
  calendar days are modelled by the floor-division day index (two epochs get
  the same `YYYY-MM-DD` UTC key iff they have the same day index).
-/

set_option maxRecDepth 10000

/-! ## Data model: glucose samples and aggregated points -/
/-- A glucose sample: `{ value, timestamp }` (value parsed from the event's
text, timestamp in local epoch milliseconds). -/
structure Reading where
  value : ℚ
  timestamp : ℤ
deriving DecidableEq, Repr

/-- An aggregated chart point: `{ value, timestamp }` as produced by
`groupGlucoseReadings` (its `value` field holds the `toFixed(0)` mean). -/
structure AggPoint where
  value : ℚ
  timestamp : ℤ
deriving DecidableEq, Repr

/-- Model of `Number.prototype.toFixed(0)`: round to nearest integer, ties
upward ("pick the larger n"); this is the floor of `q + 1/2`, computed here as
`⌊(2·num + den) / (2·den)⌋` over the reduced fraction. -/
def jsToFixed0 (q : ℚ) : ℤ := (2 * q.num + (q.den : ℤ)).fdiv (2 * (q.den : ℤ))

def defaultReading : Reading := ⟨0, 0⟩

/-- Arithmetic mean of a group's values:
`currentGroup.reduce((sum, r) => sum + r.value, 0) / currentGroup.length`. -/
def groupMean (g : List Reading) : ℚ := (g.map Reading.value).sum / (g.length : ℚ)

/-- Closing a group: emit `{ value: avgValue.toFixed(0), timestamp: currentGroup[0].timestamp }`. -/
def emitGroup (g : List Reading) : AggPoint :=
  ⟨((jsToFixed0 (groupMean g) : ℤ) : ℚ), (g.headD defaultReading).timestamp⟩

/-- The loop body of `groupGlucoseReadings`: walk the remaining readings with
the current (nonempty) group; a reading joins the group iff its timestamp
minus the group's *first* reading's timestamp is at most the threshold,
otherwise the group is closed and a new one starts. -/
def aggGo (T : ℤ) : List Reading → List Reading → List AggPoint
  | [], g => [emitGroup g]
  | r :: rest, g =>
    if r.timestamp - (g.headD defaultReading).timestamp ≤ T then
      aggGo T rest (g ++ [r])
    else
      emitGroup g :: aggGo T rest [r]

/-- Source `groupGlucoseReadings(readings, groupThresholdMs)`:
returns `[]` on empty input, otherwise runs the grouping pass starting with
a group holding the first reading. -/
def groupGlucoseReadings (readings : List Reading) (T : ℤ) : List AggPoint :=
  match readings with
  | [] => []
  | r :: rest => aggGo T rest [r]

/-- Modelled from the spec's words (for the refinement statement of C1): the
partition of the input into contiguous groups, where a sample joins the
current group iff its time minus the current group's first sample's time is
at most the threshold. -/
def specGroupsGo (T : ℤ) : List Reading → List Reading → List (List Reading)
  | [], g => [g]
  | r :: rest, g =>
    if r.timestamp - (g.headD defaultReading).timestamp ≤ T then
      specGroupsGo T rest (g ++ [r])
    else
      g :: specGroupsGo T rest [r]

/-- Modelled from the spec's words: the left-to-right grouping partition. -/
def specGroups (T : ℤ) : List Reading → List (List Reading)
  | [] => []
  | r :: rest => specGroupsGo T rest [r]

/-! ## Event correlator -/
/-- One step of the closest-glucose scan: keep the candidate of strictly
smaller absolute time difference (`diff < minDiff`), i.e. on ties the earlier
candidate is kept. -/
def closerStep (t : ℤ) (q x : AggPoint) : AggPoint :=
  if |x.timestamp - t| < |q.timestamp - t| then x else q

/-- The closest-glucose scan of `scatterData` in `updateChart`: a linear
`forEach` keeping the point of strictly smaller absolute time difference
(`minDiff` starts at `Infinity`, so the first point is always taken). -/
def findClosestGlucose (points : List AggPoint) (t : ℤ) : Option AggPoint :=
  match points with
  | [] => none
  | p :: rest => some (rest.foldl (closerStep t) p)

/-- The plotted y-value of a non-glucose event:
`closestGlucose ? closestGlucose.value : 40`. -/
def scatterY (points : List AggPoint) (t : ℤ) : ℚ :=
  match findClosestGlucose points t with
  | some g => g.value
  | none => 40

/-! ## Trend estimator -/
/-- The 5-band arrow of `currentTrend` (the if/else chain on
`ratePerMinute`). -/
def trendArrow (rate : ℚ) : String :=
  if rate > 2 then "↑"
  else if rate > 1 then "↗"
  else if rate ≥ -1 then "→"
  else if rate ≥ -2 then "↘"
  else "↓"

/-- Source `currentTrend`: `null` for fewer than 2 readings; otherwise the arrow for
`rate = (latest.value − oldest.value) / ((latest.timestamp − oldest.timestamp)/60000)`
computed from the day's first and last readings. -/
def currentTrend (readings : List Reading) : Option String :=
  match readings with
  | [] => none
  | [_] => none
  | r0 :: r1 :: rest =>
    let latest := (r0 :: r1 :: rest).getLastD r0
    let oldest := r0
    let timeDiffMinutes : ℚ := ((latest.timestamp - oldest.timestamp : ℤ) : ℚ) / 60000
    let rate := (latest.value - oldest.value) / timeDiffMinutes
    some (trendArrow rate)

/-! ## Lemmas about the trend estimator -/
/-- The spec's rate of change: value difference divided by the minutes
between the first and last sample. -/
def trendRate (r0 latest : Reading) : ℚ :=
  (latest.value - r0.value) / (((latest.timestamp - r0.timestamp : ℤ) : ℚ) / 60000)

/-! ## Window navigator -/
/-- Zoom level: `'all'` or a fixed number of hours (the UI offers `'4h'` and
`'12h'`; `parseInt` extracts the hour count). -/
inductive ZoomLevel where
  | all : ZoomLevel
  | hours (n : ℕ) : ZoomLevel
deriving DecidableEq, Repr

def msPerHour : ℤ := 3600000

/-- Source `getZoomWindowSize`: full span for `'all'`, otherwise `hours * 60 * 60 * 1000`. -/
def getZoomWindowSize (level : ZoomLevel) (mn mx : ℤ) : ℤ :=
  match level with
  | .all => mx - mn
  | .hours n => (n : ℤ) * msPerHour

/-- Source `setZoomLevel`: the new `zoomWindowStart` — `0` for `'all'`; for a fixed
length, the data minimum when the data range fits in the window, else
`max - windowSize` (most recent slice). -/
def setZoomLevel (level : ZoomLevel) (mn mx : ℤ) : ℤ :=
  match level with
  | .all => 0
  | .hours n =>
    let windowSize := (n : ℤ) * msPerHour
    if mx - mn ≤ windowSize then mn else mx - windowSize

/-- The mutable navigation state: current zoom level and raw `zoomWindowStart`. -/
structure NavState where
  level : ZoomLevel
  zws : ℤ
deriving DecidableEq, Repr

inductive PanDir where
  | left : PanDir
  | right : PanDir
deriving DecidableEq, Repr

/-- Source `moveZoomWindow(direction)`: no-op for `'all'` or an empty data range;
otherwise shift `zoomWindowStart` by half the window size, clamped at
`dataMin` (left) or `dataMax - windowSize` (right). -/
def moveZoomWindow (dir : PanDir) (mn mx : ℤ) (st : NavState) : NavState :=
  match st.level with
  | .all => st
  | .hours n =>
    if mx - mn ≤ 0 then st
    else
      let windowSize := (n : ℤ) * msPerHour
      let step := (n : ℤ) * 1800000
      match dir with
      | .left => { st with zws := max mn (st.zws - step) }
      | .right => { st with zws := min (mx - windowSize) (st.zws + step) }

/-- The window-resolution logic of `updateChart` (lines 606–632): compute the
visible `(windowStart, windowEnd)` from the zoom state and the data range,
re-basing a zero/out-of-range start on the data end and clamping the window
to the data bounds. -/
def resolveWindow (level : ZoomLevel) (zws mn mx : ℤ) : ℤ × ℤ :=
  match level with
  | .all => (mn, mx)
  | .hours n =>
    let windowSize := (n : ℤ) * msPerHour
    let ws0 := if zws = 0 ∨ zws < mn then max mn (mx - windowSize) else zws
    let we0 := ws0 + windowSize
    let ws1 := if mx < we0 then mx - windowSize else ws0
    let we1 := if mx < we0 then mx else we0
    if ws1 < mn then (mn, mx) else (ws1, we1)

/-- A navigation trigger: the user sets a zoom level or pans. -/
inductive NavOp where
  | setZoom (level : ZoomLevel) : NavOp
  | pan (dir : PanDir) : NavOp
deriving DecidableEq, Repr

def applyNavOp (mn mx : ℤ) (st : NavState) : NavOp → NavState
  | .setZoom level => ⟨level, setZoomLevel level mn mx⟩
  | .pan dir => moveZoomWindow dir mn mx st

def applyNavOps (mn mx : ℤ) (st : NavState) (ops : List NavOp) : NavState :=
  ops.foldl (applyNavOp mn mx) st

/-- Initial reactive state: `zoomLevel = ref('all')`, `zoomWindowStart = ref(0)`. -/
def initNavState : NavState := ⟨.all, 0⟩

/-- A chart data point `{x, y}` (x an epoch-ms timestamp, y a value). -/
structure ChartPoint where
  x : ℤ
  y : ℚ
deriving DecidableEq, Repr

/-- The zoom-window filter of `updateChart`:
`point.x >= windowStart && point.x <= windowEnd`. -/
def filterInWindow (pts : List ChartPoint) (ws we : ℤ) : List ChartPoint :=
  pts.filter (fun p => decide (ws ≤ p.x ∧ p.x ≤ we))

/-- Source `displayDataPoints`: the filtered points, or the full series when the
filter comes back empty. -/
def displayDataPoints (pts : List ChartPoint) (ws we : ℤ) : List ChartPoint :=
  if (filterInWindow pts ws we).isEmpty then pts else filterInWindow pts ws we

/-! ## Catalog classifier: string primitives

JavaScript strings are modelled as `List Char`. `\s` is modelled by the ASCII
whitespace class (space, tab, newline, carriage return, vertical tab, form
feed) — the catalog and the inputs of interest contain no exotic whitespace.
`toLowerCase` is modelled by ASCII lowercasing; every uppercase letter in the
catalog is ASCII, and non-ASCII letters there (`é`, `í`, `ó`, `ú`) are
already lowercase, so the model agrees with JavaScript on all strings
involved. -/
def jsIsSpace (c : Char) : Bool :=
  c == ' ' || c == '\t' || c == '\n' || c == '\r' || c == '\x0b' || c == '\x0c'

/-- Model of `String.prototype.trim()`. -/
def jsTrimL (cs : List Char) : List Char :=
  ((cs.dropWhile jsIsSpace).reverse.dropWhile jsIsSpace).reverse

/-- Model of `String.prototype.toLowerCase()` (ASCII fragment, see above). -/
def jsToLowerL (cs : List Char) : List Char := cs.map Char.toLower

/-- Model of `input.replace(/^[\s(•]+\s*/, '')`: remove the leading run of
whitespace, `(` and `•`. -/
def stripLeadingMarkersL (cs : List Char) : List Char :=
  cs.dropWhile (fun c => jsIsSpace c || c == '(' || c == '•')

/-- Model of `input.replace(/\s*[\)•]+\s*$/, '')`: with the `$` anchor the leftmost
match removes, from the end: trailing whitespace, then a required nonempty
run of `)`/`•`, then the whitespace before it. No match leaves the string
unchanged. -/
def stripTrailingMarkersL (cs : List Char) : List Char :=
  let r := cs.reverse
  let r1 := r.dropWhile jsIsSpace
  let r2 := r1.dropWhile (fun c => c == ')' || c == '•')
  if r2.length == r1.length then cs
  else (r2.dropWhile jsIsSpace).reverse

/-- Model of `.replace(/\s*\([^)]*\)\s*$/g, '')`: remove one trailing parenthetical —
after optional trailing whitespace a `)`, then a `)`-free span back to the
earliest `(` of that span, then the whitespace before it (the `g` flag is
inert: every match must end at `$`). No match leaves the string unchanged. -/
def stripTrailingParenL (cs : List Char) : List Char :=
  let r := cs.reverse
  let r1 := r.dropWhile jsIsSpace
  match r1 with
  | ')' :: r2 =>
    let span := r2.takeWhile (fun c => !(c == ')'))
    if span.contains '(' then
      let rest := r2.drop span.length
      let v := (span.reverse.takeWhile (fun c => !(c == '('))).reverse
      ((v.dropWhile jsIsSpace) ++ rest).reverse
    else cs
  | _ => cs

/-- JavaScript `\w` (ASCII word character). -/
def jsIsWordChar (c : Char) : Bool := c.isAlphanum || c == '_'

/-- Model of `.replace(/\s*\/\s*\w+$/, '')`: remove a trailing slash-delimited word
(e.g. a rate unit), with optional whitespace around the slash. -/
def stripTrailingSlashL (cs : List Char) : List Char :=
  let r := cs.reverse
  let w := r.takeWhile jsIsWordChar
  if w.isEmpty then cs
  else
    let r1 := (r.drop w.length).dropWhile jsIsSpace
    match r1 with
    | '/' :: r2 => (r2.dropWhile jsIsSpace).reverse
    | _ => cs

/-- The full input normalization of `findMatchingType`. -/
def normalizeInput (cs : List Char) : List Char :=
  jsTrimL (jsToLowerL (stripTrailingSlashL (stripTrailingParenL
    (stripTrailingMarkersL (stripLeadingMarkersL cs)))))

/-- The catalog normalization of `getNormalizedTypes` (strip one trailing
parenthetical, lower-case, trim). -/
def normalizeType (cs : List Char) : List Char :=
  jsTrimL (jsToLowerL (stripTrailingParenL cs))

/-- The fixed catalog `weightTypes`. -/
def weightTypes : List String :=
  ["Peso", "BMI", "Grasa", "Peso de grasa corporal",
   "Porcentaje de masa muscular esquelética",
   "Peso de la masa muscular esquelética", "Músculo", "Peso muscular",
   "Grasa Visceral", "Agua (%)", "Peso del agua", "Metabolismo"]

/-- Source `getNormalizedTypes()`: each catalog entry with its normalized form. -/
def getNormalizedTypes : List (String × List Char) :=
  weightTypes.map (fun t => (t, normalizeType t.data))

/-- Model of `String.prototype.includes` (contiguous substring). -/
def isSubstr (needle : List Char) : List Char → Bool
  | [] => needle.isEmpty
  | c :: t => needle.isPrefixOf (c :: t) || isSubstr needle t

/-- Source `getCommonPrefixLength`. -/
def getCommonPrefixLength : List Char → List Char → ℕ
  | a :: as, b :: bs => if a == b then getCommonPrefixLength as bs + 1 else 0
  | _, _ => 0

/-- The per-entry overlap test and score of `findMatchingType`: `none` when
neither normalized form contains the other, otherwise the entry with its
score (scores are exact in ℚ at these magnitudes). -/
def scoreEntry (ni : List Char) (nt : String × List Char) : Option (String × ℚ) :=
  let typeContainsInput := isSubstr ni nt.2
  let inputContainsType := isSubstr nt.2 ni
  if !typeContainsInput && !inputContainsType then none
  else
    let lenI : ℚ := (ni.length : ℚ)
    let lenT : ℚ := (nt.2.length : ℚ)
    let s1 : ℚ := if inputContainsType then 1000 + lenT / lenI * 100 else 0
    let s2 : ℚ := if typeContainsInput then 500 - lenI / lenT * 50 else 0
    let s3 : ℚ := lenT * 10
    let s4 : ℚ := (getCommonPrefixLength ni nt.2 : ℚ) * 20
    let s5 : ℚ := if ni = "peso".data ∧ nt.2 ≠ "peso".data then -5000 else 0
    some (nt.1, s1 + s2 + s3 + s4 + s5)

/-- Model of `sortedMatches[0]` after the stable descending sort by score: the first
candidate attaining the maximal score (a later candidate replaces the
current best only with a strictly greater score). -/
def bestMatch (m : String × ℚ) (ms : List (String × ℚ)) : String × ℚ :=
  ms.foldl (fun acc x => if acc.2 < x.2 then x else acc) m

/-- Source `findMatchingType` on an already-normalized input: exact normalized match
first, otherwise the best-scoring overlapping candidate, `null` when no
candidate overlaps. -/
def findMatchingTypeCore (ni : List Char) : Option String :=
  match getNormalizedTypes.find? (fun nt => nt.2 == ni) with
  | some nt => some nt.1
  | none =>
    match getNormalizedTypes.filterMap (scoreEntry ni) with
    | [] => none
    | m :: ms => some (bestMatch m ms).1

/-- Source `findMatchingType(input)`. -/
def findMatchingType (input : String) : Option String :=
  findMatchingTypeCore (normalizeInput input.data)

/-! ## Parsing pending text into blocks -/
/-- Helper for `split(/\n\s*\n/)`: given the characters after a matched
`\n`, when the maximal whitespace prefix contains another newline the greedy
`\s*` backs off to that prefix's *last* newline and the separator ends
there; the remainder (the prefix's tail after that newline plus the rest)
is returned. `none` means no separator match at this position. -/
def wsRunLastNl (cs : List Char) : Option (List Char) :=
  if (cs.takeWhile jsIsSpace).contains '\n' then
    some ((((cs.takeWhile jsIsSpace).reverse.takeWhile (fun c => !(c == '\n'))).reverse)
      ++ cs.drop (cs.takeWhile jsIsSpace).length)
  else none

/-- The leftmost scan of `weightText.split(/\n\s*\n/)`: characters are
accumulated into the current block (`acc`, reversed) until a separator match
starts. `fuel` bounds the remaining input length so the recursion is
structural; `splitBlocks` supplies `fuel = cs.length`, and the separator
scan never outruns it (each step consumes at least one character). -/
def goSplit : ℕ → List Char → List Char → List (List Char)
  | _, [], acc => [acc.reverse]
  | 0, c :: rest, acc => [acc.reverse ++ c :: rest]
  | fuel + 1, c :: rest, acc =>
    if c == '\n' then
      match wsRunLastNl rest with
      | some rem => acc.reverse :: goSplit fuel rem []
      | none => goSplit fuel rest (c :: acc)
    else goSplit fuel rest (c :: acc)

/-- Model of `weightText.split(/\n\s*\n/)`. -/
def splitBlocks (cs : List Char) : List (List Char) := goSplit cs.length cs []

/-- Model of `String.prototype.split('\n')` (literal separator). -/
def splitOnChar (sep : Char) : List Char → List (List Char)
  | [] => [[]]
  | c :: rest =>
    let r := splitOnChar sep rest
    if c == sep then [] :: r
    else
      match r with
      | [] => [[c]]
      | h :: t => (c :: h) :: t

/-- The scan of `String.prototype.split(/\s+/)`: emit the maximal
non-whitespace token, skip the following whitespace run, recurse (`fuel`
bounds the remaining length for structural recursion). -/
def goWsSplit : ℕ → List Char → List (List Char)
  | _, [] => [[]]
  | 0, cs => [cs]
  | fuel + 1, c :: rest =>
    match (c :: rest).dropWhile (fun x => !(jsIsSpace x)) with
    | [] => [(c :: rest).takeWhile (fun x => !(jsIsSpace x))]
    | _ :: xs =>
      (c :: rest).takeWhile (fun x => !(jsIsSpace x))
        :: goWsSplit fuel (xs.dropWhile jsIsSpace)

/-- Model of `String.prototype.split(/\s+/)`: split on maximal whitespace runs (a
leading or trailing run yields an empty token, as in JavaScript). -/
def splitWsRuns (cs : List Char) : List (List Char) := goWsSplit cs.length cs

/-! ## parseWeightText -/
/-- A classified entry `{ type, value, comment }`. -/
structure WeightItem where
  type : String
  value : List Char
  comment : List Char
deriving DecidableEq, Repr

/-- The nonempty trimmed lines of a block:
`block.trim().split('\n').map(l => l.trim()).filter(l => l)`. -/
def blockLines (block : List Char) : List (List Char) :=
  ((splitOnChar '\n' (jsTrimL block)).map jsTrimL).filter (fun l => !l.isEmpty)

/-- The raw comment of a block: the lines from the third on, joined by
spaces (`lines.slice(2).join(' ')`), empty otherwise. -/
def commentOf (lines : List (List Char)) : List Char :=
  if 2 < lines.length then List.intercalate [' '] (lines.drop 2) else []

/-- The comment noise filter: trim, split on whitespace runs, drop tokens
shorter than 2 characters, rejoin with single spaces. -/
def filterComment (comment : List Char) : List Char :=
  List.intercalate [' ']
    ((splitWsRuns (jsTrimL comment)).filter (fun w => 2 ≤ w.length))

/-- The classified entry of a single block: `none` when the block has fewer
than two nonempty lines or its label matches no catalog entry. -/
def blockEntry (block : List Char) : Option WeightItem :=
  if 2 ≤ (blockLines block).length then
    match findMatchingTypeCore (normalizeInput ((blockLines block).headD [])) with
    | some ty =>
      some ⟨ty, (blockLines block).getD 1 [],
        filterComment (commentOf (blockLines block))⟩
    | none => none
  else none

/-- One iteration of the `blocks.forEach` of `parseWeightText`, carrying the
`matched`/`unmatched` accumulators (a block with fewer than two nonempty
lines touches neither). -/
def parseStep (acc : List WeightItem × List (List Char)) (block : List Char) :
    List WeightItem × List (List Char) :=
  if 2 ≤ (blockLines block).length then
    match findMatchingTypeCore (normalizeInput ((blockLines block).headD [])) with
    | some ty =>
      (acc.1 ++ [⟨ty, (blockLines block).getD 1 [],
        filterComment (commentOf (blockLines block))⟩], acc.2)
    | none => (acc.1, acc.2 ++ [jsTrimL block])
  else acc

/-- Whether a block ends up in the `unmatched` list: at least two nonempty
lines but no catalog match. -/
def blockUnmatched (block : List Char) : Bool :=
  decide (2 ≤ (blockLines block).length)
    && (findMatchingTypeCore (normalizeInput ((blockLines block).headD []))).isNone

/-- Source `parseWeightText()`: split the pending text into blank-line-separated
blocks, classify each, append the matched entries to the existing items,
surface the unmatched blocks (trimmed) and rewrite the pending text to the
unmatched blocks joined by blank lines. -/
def parseWeightText (text : List Char) (oldItems : List WeightItem) :
    List WeightItem × List (List Char) × List Char :=
  (oldItems ++ ((splitBlocks text).foldl parseStep ([], [])).1,
   ((splitBlocks text).foldl parseStep ([], [])).2,
   List.intercalate "\n\n".data (((splitBlocks text).foldl parseStep ([], [])).2))

/-! ## Weekly grid builder

Epochs are absolute milliseconds; the source formats each epoch as a UTC
`YYYY-MM-DD` key. Two epochs produce the same key iff they lie in the same
UTC calendar day, i.e. iff they have the same floor-division day index
(`epoch.fdiv 86400000`), so days are modelled by that index. The 7 generated
dates (`setUTCDate(start + i)`) are midnights of consecutive UTC days, whose
indices are `startDay + i`. -/
/-- A body-stat record `{ type, value, comment, epoch }`. -/
structure BodyStatRecord where
  type : String
  value : List Char
  comment : List Char
  epoch : ℤ
deriving DecidableEq, Repr

/-- The UTC calendar-day index of an epoch (models the `YYYY-MM-DD` UTC
date key). -/
def epochDay (e : ℤ) : ℤ := e.fdiv 86400000

/-- One cell of the weekly grid. -/
structure GridCell where
  day : ℤ
  value : Option (List Char)
  comment : List Char
  hasData : Bool
deriving DecidableEq, Repr

/-- The record stored under `groups[type][dateKey]`: object assignment keeps
the *last* record of that type and day. -/
def lastRecordFor (records : List BodyStatRecord) (t : String) (d : ℤ) :
    Option BodyStatRecord :=
  (records.filter (fun r => decide (r.type = t ∧ epochDay r.epoch = d))).getLast?

/-- The types present in the records, in first-appearance order (JavaScript
object key order). -/
def typesOf (records : List BodyStatRecord) : List String :=
  records.foldl (fun acc r => if r.type ∈ acc then acc else acc ++ [r.type]) []

/-- One grid cell: populated from the (last) record of that type and UTC day
when one exists (`value: item?.value || null`, `comment: item?.comment || ''`,
`hasData: !!item`), explicitly empty otherwise. -/
def mkCell (records : List BodyStatRecord) (t : String) (d : ℤ) : GridCell :=
  match lastRecordFor records t d with
  | some it => ⟨d, if it.value.isEmpty then none else some it.value, it.comment, true⟩
  | none => ⟨d, none, [], false⟩

/-- Source `groupedBodyStats`: for each type present in the records, exactly 7
cells, one per consecutive UTC day from the start day. -/
def groupedBodyStats (records : List BodyStatRecord) (startDay : ℤ) :
    List (String × List GridCell) :=
  (typesOf records).map (fun t =>
    (t, (List.range 7).map (fun (i : ℕ) => mkCell records t (startDay + (i : ℤ)))))

/-- Looking a type up in the produced grid (JavaScript `result[type]`). -/
def gridLookup (g : List (String × List GridCell)) (t : String) :
    Option (List GridCell) :=
  (g.find? (fun p => decide (p.1 = t))).map Prod.snd

example : groupGlucoseReadings
    [⟨70, 21420000⟩, ⟨77, 22320000⟩, ⟨75, 22800000⟩] 1800000
    = [⟨74, 21420000⟩] := by with_unfolding_all rfl

example : currentTrend [⟨70, 0⟩, ⟨75, 60000⟩] = some "↑" := by with_unfolding_all rfl

example : scatterY [⟨100, 28800000⟩, ⟨120, 29400000⟩] 29100000 = 100 := by
  with_unfolding_all rfl

/-! ## Lemmas about the aggregator -/
theorem headD_append_of_ne_nil {α : Type} (g : List α) (r d : α) (h : g ≠ []) :
    (g ++ [r]).headD d = g.headD d := by
  cases g with
  | nil => exact absurd rfl h
  | cons a t => rfl

theorem aggGo_eq_map (T : ℤ) : ∀ (l g : List Reading),
    aggGo T l g = (specGroupsGo T l g).map emitGroup
  | [], _ => rfl
  | r :: rest, g => by
    simp only [aggGo, specGroupsGo]
    split
    · exact aggGo_eq_map T rest (g ++ [r])
    · simp [aggGo_eq_map T rest [r]]

theorem specGroupsGo_ne_nil (T : ℤ) : ∀ (l g : List Reading),
    specGroupsGo T l g ≠ []
  | [], _ => by simp [specGroupsGo]
  | r :: rest, g => by
    simp only [specGroupsGo]
    split
    · exact specGroupsGo_ne_nil T rest (g ++ [r])
    · simp

theorem specGroupsGo_flatten (T : ℤ) : ∀ (l g : List Reading),
    (specGroupsGo T l g).flatten = g ++ l
  | [], g => by simp [specGroupsGo]
  | r :: rest, g => by
    simp only [specGroupsGo]
    split
    · rw [specGroupsGo_flatten T rest (g ++ [r])]
      simp
    · rw [List.flatten_cons, specGroupsGo_flatten T rest [r]]
      simp

theorem specGroupsGo_mem_ne_nil (T : ℤ) : ∀ (l g : List Reading), g ≠ [] →
    ∀ g' ∈ specGroupsGo T l g, g' ≠ []
  | [], g => by
    intro hg g' hmem
    simp only [specGroupsGo, List.mem_singleton] at hmem
    exact hmem ▸ hg
  | r :: rest, g => by
    intro hg g' hmem
    simp only [specGroupsGo] at hmem
    split at hmem
    · exact specGroupsGo_mem_ne_nil T rest (g ++ [r]) (by simp) g' hmem
    · rcases List.mem_cons.mp hmem with h | h
      · exact h ▸ hg
      · exact specGroupsGo_mem_ne_nil T rest [r] (by simp) g' h

theorem specGroupsGo_within (T : ℤ) (hT : 0 ≤ T) : ∀ (l g : List Reading), g ≠ [] →
    (∀ r ∈ g, r.timestamp - (g.headD defaultReading).timestamp ≤ T) →
    ∀ g' ∈ specGroupsGo T l g, ∀ r ∈ g',
      r.timestamp - (g'.headD defaultReading).timestamp ≤ T
  | [], g => by
    intro hg hin g' hmem
    simp only [specGroupsGo, List.mem_singleton] at hmem
    exact hmem ▸ hin
  | x :: rest, g => by
    intro hg hin g' hmem
    simp only [specGroupsGo] at hmem
    split at hmem
    next hle =>
      refine specGroupsGo_within T hT rest (g ++ [x]) (by simp) ?_ g' hmem
      intro r hr
      rw [headD_append_of_ne_nil g x defaultReading hg]
      rcases List.mem_append.mp hr with h | h
      · exact hin r h
      · rw [List.mem_singleton.mp h]
        exact hle
    next =>
      rcases List.mem_cons.mp hmem with h | h
      · exact h ▸ hin
      · refine specGroupsGo_within T hT rest [x] (by simp) ?_ g' h
        intro r hr
        rw [List.mem_singleton.mp hr]
        simpa using hT

theorem specGroupsGo_headD (T : ℤ) : ∀ (l g : List Reading), g ≠ [] →
    ((specGroupsGo T l g).headD []).headD defaultReading = g.headD defaultReading
  | [], g => by intro _; simp [specGroupsGo]
  | r :: rest, g => by
    intro hg
    simp only [specGroupsGo]
    split
    · rw [specGroupsGo_headD T rest (g ++ [r]) (by simp)]
      exact headD_append_of_ne_nil g r defaultReading hg
    · simp

theorem specGroupsGo_chain (T : ℤ) : ∀ (l g : List Reading), g ≠ [] →
    List.Chain' (fun g1 g2 =>
      T < (g2.headD defaultReading).timestamp - (g1.headD defaultReading).timestamp)
      (specGroupsGo T l g)
  | [], g => by intro _; simp [specGroupsGo]
  | r :: rest, g => by
    intro hg
    simp only [specGroupsGo]
    split
    next => exact specGroupsGo_chain T rest (g ++ [r]) (by simp)
    next hgt =>
      rw [List.chain'_cons']
      constructor
      · intro b hb
        have hne := specGroupsGo_ne_nil T rest [r]
        rcases List.exists_cons_of_ne_nil hne with ⟨h0, t0, heq⟩
        rw [heq] at hb
        simp only [List.head?_cons, Option.mem_def, Option.some.injEq] at hb
        have hh := specGroupsGo_headD T rest [r] (by simp)
        rw [heq] at hh
        simp only [List.headD_cons] at hh
        rw [hb] at hh
        rw [hh]
        omega
      · exact specGroupsGo_chain T rest [r] (by simp)

/-- Claim C1: for every sorted sample list and non-negative threshold `T`,
`groupGlucoseReadings` partitions its input left to right into contiguous
groups (`specGroups`, written from the spec's words) — a sample joins the
current group iff its time minus the group's first sample's time is at most
`T` — and emits one point per group whose value is the arithmetic mean of
the group at the fixed display precision (`toFixed(0)`) and whose timestamp
is the group's first sample's timestamp; the final open group is emitted and
the output is empty iff the input is empty. -/
theorem aggregator_C1 (T : ℤ) (rs : List Reading) (hT : 0 ≤ T) :
    groupGlucoseReadings rs T
      = (specGroups T rs).map (fun g =>
          AggPoint.mk ((jsToFixed0 (groupMean g) : ℤ) : ℚ)
            (g.headD defaultReading).timestamp)
    ∧ (specGroups T rs).flatten = rs
    ∧ (∀ g ∈ specGroups T rs, g ≠ [])
    ∧ (∀ g ∈ specGroups T rs, ∀ r ∈ g,
        r.timestamp - (g.headD defaultReading).timestamp ≤ T)
    ∧ List.Chain' (fun g1 g2 =>
        T < (g2.headD defaultReading).timestamp - (g1.headD defaultReading).timestamp)
        (specGroups T rs)
    ∧ (groupGlucoseReadings rs T = [] ↔ rs = []) := by
  cases rs with
  | nil => simp [groupGlucoseReadings, specGroups]
  | cons r rest =>
    refine ⟨aggGo_eq_map T rest [r], specGroupsGo_flatten T rest [r], ?_, ?_, ?_, ?_⟩
    · exact specGroupsGo_mem_ne_nil T rest [r] (by simp)
    · refine specGroupsGo_within T hT rest [r] (by simp) ?_
      intro x hx
      rw [List.mem_singleton.mp hx]
      simpa using hT
    · exact specGroupsGo_chain T rest [r] (by simp)
    · constructor
      · intro h
        exfalso
        have h2 : (specGroupsGo T rest [r]).map emitGroup = [] := by
          rw [← aggGo_eq_map T rest [r]]
          exact h
        exact specGroupsGo_ne_nil T rest [r] (List.map_eq_nil_iff.mp h2)
      · intro h
        exact absurd h (List.cons_ne_nil r rest)

/-- Witness for C1 at the spec's end-to-end example: samples 70\@05:57,
77\@06:12, 75\@06:20 with a 30-minute threshold. -/
theorem aggregator_C1_witness :
    0 ≤ (1800000 : ℤ)
    ∧ (groupGlucoseReadings
          [⟨70, 21420000⟩, ⟨77, 22320000⟩, ⟨75, 22800000⟩] 1800000
        = (specGroups 1800000
            [⟨70, 21420000⟩, ⟨77, 22320000⟩, ⟨75, 22800000⟩]).map (fun g =>
              AggPoint.mk ((jsToFixed0 (groupMean g) : ℤ) : ℚ)
                (g.headD defaultReading).timestamp)
      ∧ (specGroups 1800000
          [⟨70, 21420000⟩, ⟨77, 22320000⟩, ⟨75, 22800000⟩]).flatten
        = [⟨70, 21420000⟩, ⟨77, 22320000⟩, ⟨75, 22800000⟩]
      ∧ (∀ g ∈ specGroups 1800000
            [⟨70, 21420000⟩, ⟨77, 22320000⟩, ⟨75, 22800000⟩], g ≠ [])
      ∧ (∀ g ∈ specGroups 1800000
            [⟨70, 21420000⟩, ⟨77, 22320000⟩, ⟨75, 22800000⟩], ∀ r ∈ g,
          r.timestamp - (g.headD defaultReading).timestamp ≤ 1800000)
      ∧ List.Chain' (fun g1 g2 =>
          1800000 < (g2.headD defaultReading).timestamp
            - (g1.headD defaultReading).timestamp)
          (specGroups 1800000
            [⟨70, 21420000⟩, ⟨77, 22320000⟩, ⟨75, 22800000⟩])
      ∧ (groupGlucoseReadings
            [⟨70, 21420000⟩, ⟨77, 22320000⟩, ⟨75, 22800000⟩] 1800000 = []
          ↔ ([⟨70, 21420000⟩, ⟨77, 22320000⟩, ⟨75, 22800000⟩]
              : List Reading) = [])) :=
  ⟨by decide,
   aggregator_C1 1800000 [⟨70, 21420000⟩, ⟨77, 22320000⟩, ⟨75, 22800000⟩] (by decide)⟩

/-- Claim C2, counterexample: with threshold 0 the aggregator is *not* the
identity on a single-sample list whose value is not an integer — the emitted
value is `toFixed(0)`-rounded (75.5 becomes 76), so the point does not carry
the sample's value unchanged. -/
theorem aggregator_C2_counterexample :
    groupGlucoseReadings [⟨(151 : ℚ)/2, 0⟩] 0 = [⟨76, 0⟩]
    ∧ groupGlucoseReadings [⟨(151 : ℚ)/2, 0⟩] 0 ≠ [⟨(151 : ℚ)/2, 0⟩] := by
  with_unfolding_all decide

/-- Claim C2, amended: with threshold 0 and strictly increasing timestamps,
each sample becomes its own group and the emitted point carries the sample's
timestamp unchanged and its value at the fixed display precision
(`toFixed(0)`); in particular the transform is the identity whenever every
sample value is an integer. -/
theorem aggregator_C2_amended (rs : List Reading)
    (hsorted : List.Chain' (fun a b => a.timestamp < b.timestamp) rs) :
    groupGlucoseReadings rs 0
      = rs.map (fun r => AggPoint.mk ((jsToFixed0 r.value : ℤ) : ℚ) r.timestamp) := by
  cases rs with
  | nil => rfl
  | cons r rest =>
    rw [groupGlucoseReadings]
    induction rest generalizing r with
    | nil =>
      simp only [aggGo, List.map_cons, List.map_nil]
      congr 1
      rw [emitGroup]
      simp [groupMean]
    | cons r1 rest1 ih =>
      rw [List.chain'_cons] at hsorted
      rw [aggGo]
      rw [if_neg (by simp only [List.headD_cons]; omega)]
      rw [ih r1 hsorted.2]
      simp only [List.map_cons]
      congr 1
      rw [emitGroup]
      simp [groupMean]

/-- Witness for the amended C2 on a concrete strictly increasing list. -/
theorem aggregator_C2_witness :
    List.Chain' (fun a b => a.timestamp < b.timestamp)
      [(⟨70, 0⟩ : Reading), ⟨75, 60000⟩]
    ∧ groupGlucoseReadings [(⟨70, 0⟩ : Reading), ⟨75, 60000⟩] 0
        = [(⟨70, 0⟩ : Reading), ⟨75, 60000⟩].map
            (fun r => AggPoint.mk ((jsToFixed0 r.value : ℤ) : ℚ) r.timestamp) :=
  ⟨by simp [List.chain'_cons], aggregator_C2_amended [⟨70, 0⟩, ⟨75, 60000⟩]
    (by simp [List.chain'_cons])⟩

/-! ## Lemmas about the correlator -/
theorem closerFold_spec (t : ℤ) : ∀ (l : List AggPoint) (q : AggPoint),
    List.Pairwise (fun a b => a.timestamp ≤ b.timestamp) (q :: l) →
    (l.foldl (closerStep t) q = q ∨ l.foldl (closerStep t) q ∈ l)
    ∧ (∀ x ∈ q :: l,
        |(l.foldl (closerStep t) q).timestamp - t| ≤ |x.timestamp - t|)
    ∧ (∀ x ∈ q :: l,
        |x.timestamp - t| = |(l.foldl (closerStep t) q).timestamp - t| →
        (l.foldl (closerStep t) q).timestamp ≤ x.timestamp)
  | [], q => by
    intro _
    refine ⟨Or.inl rfl, ?_, ?_⟩ <;> intro x hx <;>
      rw [List.mem_singleton.mp hx] <;> simp
  | x :: xs, q => by
    intro hp
    have hq_le : ∀ y ∈ x :: xs, q.timestamp ≤ y.timestamp :=
      (List.pairwise_cons.mp hp).1
    have hx_le : ∀ y ∈ xs, x.timestamp ≤ y.timestamp :=
      (List.pairwise_cons.mp (List.Pairwise.of_cons hp)).1
    have hxs : List.Pairwise (fun a b => a.timestamp ≤ b.timestamp) xs :=
      List.Pairwise.of_cons (List.Pairwise.of_cons hp)
    have hq'_pair : List.Pairwise (fun a b => a.timestamp ≤ b.timestamp)
        (closerStep t q x :: xs) := by
      rw [List.pairwise_cons]
      refine ⟨?_, hxs⟩
      intro y hy
      rw [closerStep]
      split
      · exact hx_le y hy
      · exact hq_le y (List.mem_cons_of_mem x hy)
    obtain ⟨ihmem, ihmin, ihtie⟩ := closerFold_spec t xs (closerStep t q x) hq'_pair
    rw [List.foldl_cons]
    by_cases hc : |x.timestamp - t| < |q.timestamp - t|
    · have hq' : closerStep t q x = x := by rw [closerStep, if_pos hc]
      rw [hq'] at ihmem ihmin ihtie ⊢
      refine ⟨?_, ?_, ?_⟩
      · rcases ihmem with h | h
        · refine Or.inr ?_
          rw [h]
          exact List.mem_cons_self x xs
        · exact Or.inr (List.mem_cons_of_mem x h)
      · intro y hy
        rcases List.mem_cons.mp hy with h | hy2
        · have h1 : |(xs.foldl (closerStep t) x).timestamp - t| ≤ |x.timestamp - t| :=
            ihmin x (List.mem_cons_self x xs)
          rw [h]
          linarith [h1, hc]
        · exact ihmin y hy2
      · intro y hy heq
        rcases List.mem_cons.mp hy with h | hy2
        · exfalso
          have h1 : |(xs.foldl (closerStep t) x).timestamp - t| ≤ |x.timestamp - t| :=
            ihmin x (List.mem_cons_self x xs)
          rw [h] at heq
          linarith [heq, hc, h1]
        · exact ihtie y hy2 heq
    · have hq' : closerStep t q x = q := by rw [closerStep, if_neg hc]
      rw [hq'] at ihmem ihmin ihtie ⊢
      push_neg at hc
      refine ⟨?_, ?_, ?_⟩
      · rcases ihmem with h | h
        · exact Or.inl h
        · exact Or.inr (List.mem_cons_of_mem x h)
      · intro y hy
        rcases List.mem_cons.mp hy with h | hy2
        · rw [h]
          exact ihmin q (List.mem_cons_self q xs)
        · rcases List.mem_cons.mp hy2 with h | hy3
          · have h1 : |(xs.foldl (closerStep t) q).timestamp - t| ≤ |q.timestamp - t| :=
              ihmin q (List.mem_cons_self q xs)
            rw [h]
            linarith [h1, hc]
          · exact ihmin y (List.mem_cons_of_mem q hy3)
      · intro y hy heq
        rcases List.mem_cons.mp hy with h | hy2
        · rw [h] at heq ⊢
          exact ihtie q (List.mem_cons_self q xs) heq
        · rcases List.mem_cons.mp hy2 with h | hy3
          · have h1 : |(xs.foldl (closerStep t) q).timestamp - t| ≤ |q.timestamp - t| :=
              ihmin q (List.mem_cons_self q xs)
            rw [h] at heq ⊢
            have h2 : |q.timestamp - t| = |(xs.foldl (closerStep t) q).timestamp - t| := by
              linarith [heq, hc, h1]
            have h3 := ihtie q (List.mem_cons_self q xs) h2
            exact le_trans h3 (hq_le x (List.mem_cons_self x xs))
          · exact ihtie y (List.mem_cons_of_mem q hy3) heq

/-- Claim C3: for every non-glucose event time `t` and non-empty chronological
aggregated-point list, the correlator scan selects a point of minimum
absolute time difference to `t`, the plotted y-value is that point's value,
and on ties the earlier point (first encountered) is selected. -/
theorem correlator_C3 (points : List AggPoint) (t : ℤ) (hne : points ≠ [])
    (hsorted : List.Pairwise (fun a b => a.timestamp ≤ b.timestamp) points) :
    ∃ p, findClosestGlucose points t = some p
      ∧ p ∈ points
      ∧ scatterY points t = p.value
      ∧ (∀ q ∈ points, |p.timestamp - t| ≤ |q.timestamp - t|)
      ∧ (∀ q ∈ points, |q.timestamp - t| = |p.timestamp - t| →
          p.timestamp ≤ q.timestamp) := by
  cases points with
  | nil => exact absurd rfl hne
  | cons p0 rest =>
    obtain ⟨hmem, hmin, htie⟩ := closerFold_spec t rest p0 hsorted
    refine ⟨rest.foldl (closerStep t) p0, rfl, ?_, rfl, hmin, htie⟩
    rcases hmem with h | h
    · rw [h]
      exact List.mem_cons_self p0 rest
    · exact List.mem_cons_of_mem p0 h

/-- Witness for C3 at the spec's tie example: points at 08:00 and 08:10,
event at 08:05 — the earlier point is selected. -/
theorem correlator_C3_witness :
    (([⟨100, 28800000⟩, ⟨120, 29400000⟩] : List AggPoint) ≠ [])
    ∧ List.Pairwise (fun a b => a.timestamp ≤ b.timestamp)
        ([⟨100, 28800000⟩, ⟨120, 29400000⟩] : List AggPoint)
    ∧ ∃ p, findClosestGlucose [⟨100, 28800000⟩, ⟨120, 29400000⟩] 29100000 = some p
        ∧ p ∈ ([⟨100, 28800000⟩, ⟨120, 29400000⟩] : List AggPoint)
        ∧ scatterY [⟨100, 28800000⟩, ⟨120, 29400000⟩] 29100000 = p.value
        ∧ (∀ q ∈ ([⟨100, 28800000⟩, ⟨120, 29400000⟩] : List AggPoint),
            |p.timestamp - 29100000| ≤ |q.timestamp - 29100000|)
        ∧ (∀ q ∈ ([⟨100, 28800000⟩, ⟨120, 29400000⟩] : List AggPoint),
            |q.timestamp - 29100000| = |p.timestamp - 29100000| →
            p.timestamp ≤ q.timestamp) :=
  ⟨by simp, by simp [List.pairwise_cons],
   correlator_C3 [⟨100, 28800000⟩, ⟨120, 29400000⟩] 29100000 (by simp)
     (by simp [List.pairwise_cons])⟩

theorem trendArrow_eq (rate : ℚ) :
    (trendArrow rate = "↑" ↔ 2 < rate)
    ∧ (trendArrow rate = "↗" ↔ 1 < rate ∧ rate ≤ 2)
    ∧ (trendArrow rate = "→" ↔ -1 ≤ rate ∧ rate ≤ 1)
    ∧ (trendArrow rate = "↘" ↔ -2 ≤ rate ∧ rate < -1)
    ∧ (trendArrow rate = "↓" ↔ rate < -2) := by
  unfold trendArrow
  by_cases h1 : rate > 2
  · rw [if_pos h1]
    exact ⟨iff_of_true rfl h1,
      iff_of_false (by decide) (by rintro ⟨-, h⟩; linarith),
      iff_of_false (by decide) (by rintro ⟨-, h⟩; linarith),
      iff_of_false (by decide) (by rintro ⟨-, h⟩; linarith),
      iff_of_false (by decide) (by intro h; linarith)⟩
  · rw [if_neg h1]
    by_cases h2 : rate > 1
    · rw [if_pos h2]
      exact ⟨iff_of_false (by decide) h1,
        iff_of_true rfl ⟨h2, not_lt.mp h1⟩,
        iff_of_false (by decide) (by rintro ⟨-, h⟩; linarith),
        iff_of_false (by decide) (by rintro ⟨-, h⟩; linarith),
        iff_of_false (by decide) (by intro h; linarith)⟩
    · rw [if_neg h2]
      by_cases h3 : rate ≥ -1
      · rw [if_pos h3]
        exact ⟨iff_of_false (by decide) h1,
          iff_of_false (by decide) (by rintro ⟨h, -⟩; exact h2 h),
          iff_of_true rfl ⟨h3, not_lt.mp h2⟩,
          iff_of_false (by decide) (by rintro ⟨-, h⟩; linarith),
          iff_of_false (by decide) (by intro h; linarith)⟩
      · rw [if_neg h3]
        by_cases h4 : rate ≥ -2
        · rw [if_pos h4]
          exact ⟨iff_of_false (by decide) h1,
            iff_of_false (by decide) (by rintro ⟨h, -⟩; exact h2 h),
            iff_of_false (by decide) (by rintro ⟨h, -⟩; exact h3 h),
            iff_of_true rfl ⟨h4, not_le.mp h3⟩,
            iff_of_false (by decide) (by intro h; linarith)⟩
        · rw [if_neg h4]
          exact ⟨iff_of_false (by decide) h1,
            iff_of_false (by decide) (by rintro ⟨h, -⟩; exact h2 h),
            iff_of_false (by decide) (by rintro ⟨h, -⟩; exact h3 h),
            iff_of_false (by decide) (by rintro ⟨h, -⟩; exact h4 h),
            iff_of_true rfl (not_le.mp h4)⟩

/-- Claim C4: the trend estimator returns "no trend" (`none`) for fewer than 2
samples; otherwise, with `rate` the value change from the day's first to last
sample divided by the minutes between them, it reports sharply-rising iff
`rate > 2`, rising iff `1 < rate ≤ 2`, stable iff `-1 ≤ rate ≤ 1`, falling
iff `-2 ≤ rate < -1`, and sharply-falling iff `rate < -2`. -/
theorem trend_C4 (readings : List Reading) :
    (readings.length < 2 → currentTrend readings = none)
    ∧ (∀ r0 r1 rest, readings = r0 :: r1 :: rest →
        r0.timestamp < ((r0 :: r1 :: rest).getLastD r0).timestamp →
        ((currentTrend readings = some "↑"
            ↔ 2 < trendRate r0 ((r0 :: r1 :: rest).getLastD r0))
         ∧ (currentTrend readings = some "↗"
            ↔ 1 < trendRate r0 ((r0 :: r1 :: rest).getLastD r0)
              ∧ trendRate r0 ((r0 :: r1 :: rest).getLastD r0) ≤ 2)
         ∧ (currentTrend readings = some "→"
            ↔ -1 ≤ trendRate r0 ((r0 :: r1 :: rest).getLastD r0)
              ∧ trendRate r0 ((r0 :: r1 :: rest).getLastD r0) ≤ 1)
         ∧ (currentTrend readings = some "↘"
            ↔ -2 ≤ trendRate r0 ((r0 :: r1 :: rest).getLastD r0)
              ∧ trendRate r0 ((r0 :: r1 :: rest).getLastD r0) < -1)
         ∧ (currentTrend readings = some "↓"
            ↔ trendRate r0 ((r0 :: r1 :: rest).getLastD r0) < -2))) := by
  constructor
  · intro h
    match readings, h with
    | [], _ => rfl
    | [_], _ => rfl
  · rintro r0 r1 rest rfl _
    have hct : currentTrend (r0 :: r1 :: rest)
        = some (trendArrow (trendRate r0 ((r0 :: r1 :: rest).getLastD r0))) := rfl
    rw [hct]
    simp only [Option.some_inj]
    exact trendArrow_eq (trendRate r0 ((r0 :: r1 :: rest).getLastD r0))

/-- Witness for C4 on a two-sample day rising 5 mg/dL per minute. -/
theorem trend_C4_witness :
    ((⟨70, 0⟩ : Reading).timestamp
        < (([⟨70, 0⟩, ⟨75, 60000⟩] : List Reading).getLastD ⟨70, 0⟩).timestamp)
    ∧ ((currentTrend [⟨70, 0⟩, ⟨75, 60000⟩] = some "↑"
          ↔ 2 < trendRate ⟨70, 0⟩ (([⟨70, 0⟩, ⟨75, 60000⟩] : List Reading).getLastD ⟨70, 0⟩))
       ∧ (currentTrend [⟨70, 0⟩, ⟨75, 60000⟩] = some "↗"
          ↔ 1 < trendRate ⟨70, 0⟩ (([⟨70, 0⟩, ⟨75, 60000⟩] : List Reading).getLastD ⟨70, 0⟩)
            ∧ trendRate ⟨70, 0⟩ (([⟨70, 0⟩, ⟨75, 60000⟩] : List Reading).getLastD ⟨70, 0⟩) ≤ 2)
       ∧ (currentTrend [⟨70, 0⟩, ⟨75, 60000⟩] = some "→"
          ↔ -1 ≤ trendRate ⟨70, 0⟩ (([⟨70, 0⟩, ⟨75, 60000⟩] : List Reading).getLastD ⟨70, 0⟩)
            ∧ trendRate ⟨70, 0⟩ (([⟨70, 0⟩, ⟨75, 60000⟩] : List Reading).getLastD ⟨70, 0⟩) ≤ 1)
       ∧ (currentTrend [⟨70, 0⟩, ⟨75, 60000⟩] = some "↘"
          ↔ -2 ≤ trendRate ⟨70, 0⟩ (([⟨70, 0⟩, ⟨75, 60000⟩] : List Reading).getLastD ⟨70, 0⟩)
            ∧ trendRate ⟨70, 0⟩ (([⟨70, 0⟩, ⟨75, 60000⟩] : List Reading).getLastD ⟨70, 0⟩) < -1)
       ∧ (currentTrend [⟨70, 0⟩, ⟨75, 60000⟩] = some "↓"
          ↔ trendRate ⟨70, 0⟩ (([⟨70, 0⟩, ⟨75, 60000⟩] : List Reading).getLastD ⟨70, 0⟩) < -2)) :=
  ⟨by decide,
   (trend_C4 [⟨70, 0⟩, ⟨75, 60000⟩]).2 ⟨70, 0⟩ ⟨75, 60000⟩ [] rfl (by decide)⟩

example : resolveWindow (.hours 4) (setZoomLevel (.hours 4) 1000 7201000) 1000 7201000
    = (1000, 7201000) := by decide

example : resolveWindow .all 0 1000 7201000 = (1000, 7201000) := by decide

/-! ## Lemmas about the window navigator -/
theorem resolveWindow_hours_spec (n : ℕ) (zws mn mx : ℤ) :
    mn ≤ (resolveWindow (.hours n) zws mn mx).1
    ∧ (resolveWindow (.hours n) zws mn mx).2 ≤ mx
    ∧ ((resolveWindow (.hours n) zws mn mx).2
        = (resolveWindow (.hours n) zws mn mx).1 + (n : ℤ) * msPerHour
       ∨ (resolveWindow (.hours n) zws mn mx).2 = mx)
    ∧ ((n : ℤ) * msPerHour ≤ mx - mn →
        (resolveWindow (.hours n) zws mn mx).2
          = (resolveWindow (.hours n) zws mn mx).1 + (n : ℤ) * msPerHour)
    ∧ (mx - mn < (n : ℤ) * msPerHour → resolveWindow (.hours n) zws mn mx = (mn, mx))
    ∧ (resolveWindow (.hours n) zws mn mx).2
        ≤ (resolveWindow (.hours n) zws mn mx).1 + (n : ℤ) * msPerHour := by
  unfold resolveWindow msPerHour
  dsimp only
  simp only [max_def]
  split_ifs <;> dsimp only <;>
    exact ⟨by omega, by omega, by omega, fun h => by omega,
      fun h => by apply Prod.ext <;> dsimp only <;> omega, by omega⟩

/-- Claim C5: `setZoom('all')` resolves the visible range to exactly
`fullRange`; for a fixed length, when the data span is at most the window
length the window starts at `fullRange.start` and resolves to the full range
(shows everything), otherwise it starts at `fullRange.end − length` and
resolves to the most recent window-length slice. -/
theorem navigator_C5 (mn mx : ℤ) (n : ℕ) :
    (∀ zws, resolveWindow .all zws mn mx = (mn, mx))
    ∧ (mx - mn ≤ (n : ℤ) * msPerHour →
        setZoomLevel (.hours n) mn mx = mn
        ∧ resolveWindow (.hours n) (setZoomLevel (.hours n) mn mx) mn mx = (mn, mx))
    ∧ ((n : ℤ) * msPerHour < mx - mn →
        setZoomLevel (.hours n) mn mx = mx - (n : ℤ) * msPerHour
        ∧ resolveWindow (.hours n) (setZoomLevel (.hours n) mn mx) mn mx
            = (mx - (n : ℤ) * msPerHour, mx)) := by
  refine ⟨fun _ => rfl, ?_, ?_⟩
  · intro h
    unfold msPerHour at h
    have hs : setZoomLevel (.hours n) mn mx = mn := by
      unfold setZoomLevel msPerHour
      dsimp only
      rw [if_pos (by omega)]
    refine ⟨hs, ?_⟩
    rw [hs]
    unfold resolveWindow msPerHour
    dsimp only
    simp only [max_def]
    split_ifs <;> (apply Prod.ext <;> dsimp only <;> omega)
  · intro h
    unfold msPerHour at h
    have hs : setZoomLevel (.hours n) mn mx = mx - (n : ℤ) * msPerHour := by
      unfold setZoomLevel msPerHour
      dsimp only
      rw [if_neg (by omega)]
    refine ⟨hs, ?_⟩
    rw [hs]
    unfold resolveWindow msPerHour at *
    dsimp only
    simp only [max_def]
    split_ifs <;> (apply Prod.ext <;> dsimp only <;> omega)

/-- Witness for C5: a 2-hour data span with a 4-hour zoom collapses to the
full range (the spec's window-underflow example), and a 24-hour span with a
4-hour zoom shows the most recent 4 hours. -/
theorem navigator_C5_witness :
    ((7201000 : ℤ) - 1000 ≤ (4 : ℤ) * msPerHour →
        setZoomLevel (.hours 4) 1000 7201000 = 1000
        ∧ resolveWindow (.hours 4) (setZoomLevel (.hours 4) 1000 7201000) 1000 7201000
            = (1000, 7201000))
    ∧ (setZoomLevel (.hours 4) 1000 7201000 = 1000
        ∧ resolveWindow (.hours 4) (setZoomLevel (.hours 4) 1000 7201000) 1000 7201000
            = (1000, 7201000)) :=
  ⟨(navigator_C5 1000 7201000 4).2.1,
   (navigator_C5 1000 7201000 4).2.1 (by decide)⟩

/-- Claim C6, counterexample: `fullRange = [1000, 7201000]` (a 2-hour span) and
the single operation `setZoom('4h')` leave a fixed-length zoom whose clamped
window starts at `fullRange.start`, yet `windowStart + windowLength` exceeds
`fullRange.end` — the claimed invariant
`windowStart + windowLength ≤ fullRange.end` fails whenever the span is
smaller than the window length. -/
theorem navigator_C6_counterexample :
    (applyNavOps 1000 7201000 initNavState [NavOp.setZoom (.hours 4)]).level
      = ZoomLevel.hours 4
    ∧ (resolveWindow
        (applyNavOps 1000 7201000 initNavState [NavOp.setZoom (.hours 4)]).level
        (applyNavOps 1000 7201000 initNavState [NavOp.setZoom (.hours 4)]).zws
        1000 7201000).1 = 1000
    ∧ ¬ ((resolveWindow
        (applyNavOps 1000 7201000 initNavState [NavOp.setZoom (.hours 4)]).level
        (applyNavOps 1000 7201000 initNavState [NavOp.setZoom (.hours 4)]).zws
        1000 7201000).1 + (4 : ℤ) * msPerHour ≤ 7201000) := by decide

/-- Claim C6, amended: for every `fullRange` and every operation sequence,
whenever the zoom is a fixed length the *clamped* window satisfies
`fullRange.start ≤ windowStart` and `windowEnd ≤ fullRange.end`, where
`windowEnd = windowStart + windowLength` whenever the span of `fullRange` is
at least the window length (when the span is smaller, the clamped window is
`fullRange` itself, shorter than the window length); `pan` is a no-op when
the zoom is `'all'` or `fullRange` has zero span, and otherwise shifts
`windowStart` by half the window length, clamped at `fullRange.start` on the
left and `fullRange.end − windowLength` on the right. -/
theorem navigator_C6_amended (mn mx : ℤ) :
    (∀ (ops : List NavOp) (n : ℕ),
      (applyNavOps mn mx initNavState ops).level = .hours n →
      (mn ≤ (resolveWindow (.hours n) (applyNavOps mn mx initNavState ops).zws mn mx).1
       ∧ (resolveWindow (.hours n) (applyNavOps mn mx initNavState ops).zws mn mx).2 ≤ mx
       ∧ ((n : ℤ) * msPerHour ≤ mx - mn →
           (resolveWindow (.hours n) (applyNavOps mn mx initNavState ops).zws mn mx).2
             = (resolveWindow (.hours n) (applyNavOps mn mx initNavState ops).zws mn mx).1
               + (n : ℤ) * msPerHour)
       ∧ (mx - mn < (n : ℤ) * msPerHour →
           resolveWindow (.hours n) (applyNavOps mn mx initNavState ops).zws mn mx
             = (mn, mx))))
    ∧ (∀ st dir, st.level = .all → moveZoomWindow dir mn mx st = st)
    ∧ (∀ st dir, mx - mn ≤ 0 → moveZoomWindow dir mn mx st = st)
    ∧ (∀ (st : NavState) (n : ℕ), st.level = .hours n → 0 < mx - mn →
        (moveZoomWindow .left mn mx st).zws = max mn (st.zws - (n : ℤ) * 1800000)
        ∧ (moveZoomWindow .right mn mx st).zws
            = min (mx - (n : ℤ) * msPerHour) (st.zws + (n : ℤ) * 1800000)) := by
  refine ⟨?_, ?_, ?_, ?_⟩
  · intro ops n _
    obtain ⟨ha, hb, -, hd, he, -⟩ :=
      resolveWindow_hours_spec n (applyNavOps mn mx initNavState ops).zws mn mx
    exact ⟨ha, hb, hd, he⟩
  · intro st dir h
    obtain ⟨lvl, z⟩ := st
    cases lvl with
    | all => rfl
    | hours n => exact absurd h (by simp)
  · intro st dir h
    obtain ⟨lvl, z⟩ := st
    cases lvl with
    | all => rfl
    | hours n =>
      unfold moveZoomWindow
      dsimp only
      rw [if_pos h]
  · intro st n hl hpos
    obtain ⟨lvl, z⟩ := st
    dsimp only at hl
    subst hl
    constructor
    · unfold moveZoomWindow
      dsimp only
      rw [if_neg (by omega)]
    · unfold moveZoomWindow
      dsimp only
      rw [if_neg (by omega)]

/-- Witness for the amended C6: a 24-hour span, `setZoom('4h')` then a left
pan. -/
theorem navigator_C6_witness :
    (applyNavOps 1000 86401000 initNavState
        [NavOp.setZoom (.hours 4), NavOp.pan .left]).level = ZoomLevel.hours 4
    ∧ (1000 ≤ (resolveWindow (.hours 4)
          (applyNavOps 1000 86401000 initNavState
            [NavOp.setZoom (.hours 4), NavOp.pan .left]).zws 1000 86401000).1
       ∧ (resolveWindow (.hours 4)
          (applyNavOps 1000 86401000 initNavState
            [NavOp.setZoom (.hours 4), NavOp.pan .left]).zws 1000 86401000).2 ≤ 86401000
       ∧ ((4 : ℤ) * msPerHour ≤ 86401000 - 1000 →
           (resolveWindow (.hours 4)
              (applyNavOps 1000 86401000 initNavState
                [NavOp.setZoom (.hours 4), NavOp.pan .left]).zws 1000 86401000).2
             = (resolveWindow (.hours 4)
                  (applyNavOps 1000 86401000 initNavState
                    [NavOp.setZoom (.hours 4), NavOp.pan .left]).zws 1000 86401000).1
               + (4 : ℤ) * msPerHour)
       ∧ (86401000 - 1000 < (4 : ℤ) * msPerHour →
           resolveWindow (.hours 4)
              (applyNavOps 1000 86401000 initNavState
                [NavOp.setZoom (.hours 4), NavOp.pan .left]).zws 1000 86401000
             = (1000, 86401000))) :=
  ⟨by decide,
   (navigator_C6_amended 1000 86401000).1
     [NavOp.setZoom (.hours 4), NavOp.pan .left] 4 (by decide)⟩

theorem resolveWindow_size_spec (level : ZoomLevel) (zws mn mx : ℤ) :
    (resolveWindow level zws mn mx).2
      ≤ (resolveWindow level zws mn mx).1 + getZoomWindowSize level mn mx
    ∧ ((resolveWindow level zws mn mx).2
        = (resolveWindow level zws mn mx).1 + getZoomWindowSize level mn mx
       ∨ (resolveWindow level zws mn mx).2 = mx) := by
  cases level with
  | all =>
    refine ⟨?_, Or.inl ?_⟩ <;> (dsimp [resolveWindow, getZoomWindowSize]; omega)
  | hours n =>
    obtain ⟨-, -, hc, -, -, hf⟩ := resolveWindow_hours_spec n zws mn mx
    exact ⟨by simpa [getZoomWindowSize] using hf,
      by simpa [getZoomWindowSize] using hc⟩

/-- Claim C7: for the resolved zoom window, a chart point or marker timestamp
(bounded by the data maximum) is in the rendered window iff it lies in the
closed interval `[windowStart, windowStart + length]`; the filter is exactly
that interval test, and when the filtered point set is empty the full
unfiltered series is displayed instead. -/
theorem navigator_C7 (level : ZoomLevel) (zws mn mx : ℤ)
    (pts : List ChartPoint) (hb : ∀ p ∈ pts, p.x ≤ mx) :
    (∀ x : ℤ, x ≤ mx →
      (((resolveWindow level zws mn mx).1 ≤ x ∧ x ≤ (resolveWindow level zws mn mx).2)
        ↔ ((resolveWindow level zws mn mx).1 ≤ x
            ∧ x ≤ (resolveWindow level zws mn mx).1 + getZoomWindowSize level mn mx)))
    ∧ (∀ p, p ∈ filterInWindow pts (resolveWindow level zws mn mx).1
            (resolveWindow level zws mn mx).2
        ↔ (p ∈ pts ∧ (resolveWindow level zws mn mx).1 ≤ p.x
            ∧ p.x ≤ (resolveWindow level zws mn mx).1 + getZoomWindowSize level mn mx))
    ∧ (filterInWindow pts (resolveWindow level zws mn mx).1
          (resolveWindow level zws mn mx).2 = [] →
        displayDataPoints pts (resolveWindow level zws mn mx).1
          (resolveWindow level zws mn mx).2 = pts)
    ∧ (filterInWindow pts (resolveWindow level zws mn mx).1
          (resolveWindow level zws mn mx).2 ≠ [] →
        displayDataPoints pts (resolveWindow level zws mn mx).1
          (resolveWindow level zws mn mx).2
          = filterInWindow pts (resolveWindow level zws mn mx).1
              (resolveWindow level zws mn mx).2) := by
  obtain ⟨hle, hor⟩ := resolveWindow_size_spec level zws mn mx
  have hiff : ∀ x : ℤ, x ≤ mx →
      (((resolveWindow level zws mn mx).1 ≤ x ∧ x ≤ (resolveWindow level zws mn mx).2)
        ↔ ((resolveWindow level zws mn mx).1 ≤ x
            ∧ x ≤ (resolveWindow level zws mn mx).1 + getZoomWindowSize level mn mx)) := by
    intro x hx
    omega
  refine ⟨hiff, ?_, ?_, ?_⟩
  · intro p
    rw [filterInWindow, List.mem_filter]
    simp only [decide_eq_true_eq]
    constructor
    · rintro ⟨hp, hw⟩
      exact ⟨hp, (hiff p.x (hb p hp)).mp hw⟩
    · rintro ⟨hp, hw⟩
      exact ⟨hp, (hiff p.x (hb p hp)).mpr hw⟩
  · intro h
    rw [displayDataPoints, if_pos (by rw [h]; rfl)]
  · intro h
    rw [displayDataPoints,
      if_neg (fun hh => h (List.isEmpty_iff.mp hh))]

/-- Witness for C7 at a concrete 4-hour window over a one-point series. -/
theorem navigator_C7_witness :
    (∀ p ∈ ([⟨2000, 100⟩] : List ChartPoint), p.x ≤ 86401000)
    ∧ (∀ p, p ∈ filterInWindow [⟨2000, 100⟩]
            (resolveWindow (.hours 4) 0 1000 86401000).1
            (resolveWindow (.hours 4) 0 1000 86401000).2
        ↔ (p ∈ ([⟨2000, 100⟩] : List ChartPoint)
            ∧ (resolveWindow (.hours 4) 0 1000 86401000).1 ≤ p.x
            ∧ p.x ≤ (resolveWindow (.hours 4) 0 1000 86401000).1
                + getZoomWindowSize (.hours 4) 1000 86401000)) :=
  ⟨by decide,
   (navigator_C7 (.hours 4) 0 1000 86401000 [⟨2000, 100⟩] (by decide)).2.1⟩

example : findMatchingType "peso" = some "Peso" := by decide

example : normalizeInput "Peso (Kg)".data = "peso (kg".data := by decide

example : findMatchingType "Peso (Kg)" = some "Peso" := by with_unfolding_all rfl

example : findMatchingType "xyz" = none := by decide

example : normalizeInput "• Grasa Visceral (%) ".data = "grasa visceral (%".data := by
  decide

/-! ## Lemmas about the classifier -/
theorem find_normalized_eq : ∀ (l : List String) (t : String),
    t ∈ l → (l.map (fun s => normalizeType s.data)).Nodup →
    (l.map (fun s => (s, normalizeType s.data))).find?
        (fun nt => nt.2 == normalizeType t.data)
      = some (t, normalizeType t.data)
  | [], t => by intro h _; cases h
  | a :: l, t => by
    intro hmem hnodup
    rw [List.map_cons] at hnodup ⊢
    rw [List.nodup_cons] at hnodup
    by_cases hpa : normalizeType a.data = normalizeType t.data
    · have ht : t = a := by
        rcases List.mem_cons.mp hmem with h | h
        · exact h
        · exfalso
          refine hnodup.1 ?_
          rw [hpa]
          exact List.mem_map.mpr ⟨t, h, rfl⟩
      subst ht
      rw [List.find?_cons_of_pos _ (by simp [hpa])]
    · have ht : t ∈ l := by
        rcases List.mem_cons.mp hmem with h | h
        · exact absurd (h ▸ rfl) hpa
        · exact h
      rw [List.find?_cons_of_neg _ (by simpa using hpa)]
      exact find_normalized_eq l t ht hnodup.2

/-- Claim C8: a label whose normalized form equals a catalog entry's normalized
form matches that entry (exact match, no scoring); `"peso"` matches `"Peso"`
and never a longer compound entry, and `"Peso (Kg)"` resolves to the same
candidate as `"Peso"`. -/
theorem classifier_C8 :
    (∀ (label t : String), t ∈ weightTypes →
      normalizeInput label.data = normalizeType t.data →
      findMatchingType label = some t)
    ∧ findMatchingType "peso" = some "Peso"
    ∧ findMatchingType "Peso (Kg)" = some "Peso"
    ∧ findMatchingType "Peso (Kg)" = findMatchingType "Peso" := by
  refine ⟨?_, by decide, by with_unfolding_all rfl, by with_unfolding_all rfl⟩
  intro label t hmem hnorm
  have hnodup : (weightTypes.map (fun s => normalizeType s.data)).Nodup := by decide
  have hf : getNormalizedTypes.find? (fun nt => nt.2 == normalizeType t.data)
      = some (t, normalizeType t.data) := find_normalized_eq weightTypes t hmem hnodup
  unfold findMatchingType
  rw [hnorm]
  unfold findMatchingTypeCore
  rw [hf]

/-- Witness for C8: the label `"Grasa"` normalizes onto the catalog entry
`"Grasa"` and matches it exactly. -/
theorem classifier_C8_witness :
    ("Grasa" ∈ weightTypes
      ∧ normalizeInput "Grasa".data = normalizeType "Grasa".data)
    ∧ findMatchingType "Grasa" = some "Grasa" :=
  ⟨⟨by decide, by decide⟩, classifier_C8.1 "Grasa" "Grasa" (by decide) (by decide)⟩

example : splitBlocks "peso\n80\n\nxyz\n42".data
    = ["peso\n80".data, "xyz\n42".data] := by decide

example : splitBlocks "a\n \n \nb".data = ["a".data, "b".data] := by decide

example : splitBlocks "a\n\n  b".data = ["a".data, "  b".data] := by decide

example : splitBlocks "".data = [[]] := by decide

example : splitBlocks "a\nb".data = ["a\nb".data] := by decide

example : splitOnChar '\n' "a\nb".data = ["a".data, "b".data] := by decide

example : splitWsRuns "ab  cd e".data = ["ab".data, "cd".data, "e".data] := by decide

example : splitWsRuns "".data = [[]] := by decide

example : splitWsRuns " a ".data = ["".data, "a".data, "".data] := by decide

theorem parseFold_spec : ∀ (blocks : List (List Char))
    (acc : List WeightItem × List (List Char)),
    blocks.foldl parseStep acc
      = (acc.1 ++ blocks.filterMap blockEntry,
         acc.2 ++ (blocks.filter blockUnmatched).map jsTrimL)
  | [], acc => by simp
  | b :: rest, acc => by
    rw [List.foldl_cons, parseFold_spec rest (parseStep acc b)]
    by_cases h2 : 2 ≤ (blockLines b).length
    · cases hm : findMatchingTypeCore (normalizeInput ((blockLines b).headD [])) with
      | some ty =>
        have hstep : parseStep acc b
            = (acc.1 ++ [⟨ty, (blockLines b).getD 1 [],
                filterComment (commentOf (blockLines b))⟩], acc.2) := by
          unfold parseStep
          rw [if_pos h2, hm]
        have hentry : blockEntry b
            = some ⟨ty, (blockLines b).getD 1 [],
                filterComment (commentOf (blockLines b))⟩ := by
          unfold blockEntry
          rw [if_pos h2, hm]
        have hunm : blockUnmatched b = false := by
          unfold blockUnmatched
          rw [hm]
          simp
        rw [hstep, List.filterMap_cons, hentry, List.filter_cons, hunm]
        simp [List.append_assoc]
      | none =>
        have hstep : parseStep acc b = (acc.1, acc.2 ++ [jsTrimL b]) := by
          unfold parseStep
          rw [if_pos h2, hm]
        have hentry : blockEntry b = none := by
          unfold blockEntry
          rw [if_pos h2, hm]
        have hunm : blockUnmatched b = true := by
          unfold blockUnmatched
          rw [hm]
          simp [h2]
        rw [hstep, List.filterMap_cons, hentry, List.filter_cons, hunm]
        simp [List.append_assoc]
    · have hstep : parseStep acc b = acc := by
        unfold parseStep
        rw [if_neg h2]
      have hentry : blockEntry b = none := by
        unfold blockEntry
        rw [if_neg h2]
      have hunm : blockUnmatched b = false := by
        unfold blockUnmatched
        simp [h2]
      rw [hstep, List.filterMap_cons, hentry, List.filter_cons, hunm]
      simp

/-- Claim C9, counterexample: the single-block text `"abc"` has only one
nonempty line; `parseWeightText` classifies nothing *and* rewrites the
pending buffer to empty — the block is silently dropped, so it is not true
that every block either yields an entry or is returned in the buffer. -/
theorem classifier_C9_counterexample :
    splitBlocks "abc".data = ["abc".data]
    ∧ parseWeightText "abc".data [] = ([], [], []) := by decide

/-- Claim C9, amended: every block with at least two nonempty (trimmed) lines
either yields exactly one classified entry (appended to the existing items)
or has its trimmed text kept, in order, in the unmatched list; blocks with
fewer than two nonempty lines are silently dropped; the rewritten pending
buffer is exactly the unmatched blocks joined by blank lines. In particular,
one matched block and one unmatched block yield exactly one classified entry
and a pending buffer holding only the unmatched block's text. -/
theorem classifier_C9_amended :
    (∀ (text : List Char) (oldItems : List WeightItem),
      (parseWeightText text oldItems).1
          = oldItems ++ (splitBlocks text).filterMap blockEntry
      ∧ (parseWeightText text oldItems).2.1
          = ((splitBlocks text).filter blockUnmatched).map jsTrimL
      ∧ (parseWeightText text oldItems).2.2
          = List.intercalate "\n\n".data
              (((splitBlocks text).filter blockUnmatched).map jsTrimL))
    ∧ parseWeightText "peso\n80\n\nxyz\n42".data []
        = ([⟨"Peso", "80".data, []⟩], ["xyz\n42".data], "xyz\n42".data) := by
  constructor
  · intro text oldItems
    have h := parseFold_spec (splitBlocks text) ([], [])
    unfold parseWeightText
    rw [h]
    simp
  · decide

example : gridLookup (groupedBodyStats
    [⟨"Peso", "80".data, [], 86400000⟩] 0) "Peso"
    = some ((List.range 7).map (fun i =>
        mkCell [⟨"Peso", "80".data, [], 86400000⟩] "Peso" ((i : ℤ)))) := by decide

/-! ### Lemmas about the weekly grid -/
theorem typesOf_aux_mem : ∀ (records : List BodyStatRecord) (acc : List String)
    (s : String),
    s ∈ records.foldl (fun acc r => if r.type ∈ acc then acc else acc ++ [r.type]) acc
      ↔ s ∈ acc ∨ ∃ r ∈ records, r.type = s
  | [], acc, s => by simp
  | r :: rest, acc, s => by
    rw [List.foldl_cons, typesOf_aux_mem rest _ s]
    by_cases h : r.type ∈ acc
    · rw [if_pos h]
      constructor
      · rintro (h2 | h2)
        · exact Or.inl h2
        · exact Or.inr (by rcases h2 with ⟨x, hx, he⟩; exact ⟨x, List.mem_cons_of_mem r hx, he⟩)
      · rintro (h2 | ⟨x, hx, he⟩)
        · exact Or.inl h2
        · rcases List.mem_cons.mp hx with rfl | h3
          · exact Or.inl (he ▸ h)
          · exact Or.inr ⟨x, h3, he⟩
    · rw [if_neg h]
      constructor
      · rintro (h2 | h2)
        · rcases List.mem_append.mp h2 with h3 | h3
          · exact Or.inl h3
          · exact Or.inr ⟨r, List.mem_cons_self r rest, (List.mem_singleton.mp h3).symm⟩
        · exact Or.inr (by rcases h2 with ⟨x, hx, he⟩; exact ⟨x, List.mem_cons_of_mem r hx, he⟩)
      · rintro (h2 | ⟨x, hx, he⟩)
        · exact Or.inl (List.mem_append.mpr (Or.inl h2))
        · rcases List.mem_cons.mp hx with rfl | h3
          · exact Or.inl (List.mem_append.mpr (Or.inr (by simp [he])))
          · exact Or.inr ⟨x, h3, he⟩

theorem typesOf_mem (records : List BodyStatRecord) (s : String) :
    s ∈ typesOf records ↔ ∃ r ∈ records, r.type = s := by
  rw [typesOf, typesOf_aux_mem]
  simp

theorem gridLookup_map_of_mem {β : Type} [DecidableEq β] :
    ∀ (l : List String) (f : String → β) (t : String), t ∈ l →
    ((l.map (fun s => (s, f s))).find? (fun p => decide (p.1 = t))).map Prod.snd
      = some (f t)
  | [], _, t => by intro h; cases h
  | a :: l, f, t => by
    intro hmem
    rw [List.map_cons]
    by_cases h : a = t
    · subst h
      rw [List.find?_cons_of_pos _ (by simp)]
      rfl
    · rw [List.find?_cons_of_neg _ (by simp [h])]
      refine gridLookup_map_of_mem l f t ?_
      rcases List.mem_cons.mp hmem with rfl | h2
      · exact absurd rfl h
      · exact h2

theorem gridLookup_map_of_not_mem {β : Type} [DecidableEq β] :
    ∀ (l : List String) (f : String → β) (t : String), t ∉ l →
    ((l.map (fun s => (s, f s))).find? (fun p => decide (p.1 = t))).map Prod.snd
      = none
  | [], _, t => by intro _; rfl
  | a :: l, f, t => by
    intro hmem
    rw [List.map_cons]
    rw [List.find?_cons_of_neg _ (by simp; rintro rfl; exact hmem (List.mem_cons_self a l))]
    exact gridLookup_map_of_not_mem l f t (fun h => hmem (List.mem_cons_of_mem a h))

theorem getLast?_mem_of_eq {α : Type} : ∀ (l : List α) (a : α), l.getLast? = some a → a ∈ l
  | [], a => by intro h; cases h
  | [x], a => by
    intro h
    simp only [List.getLast?_singleton, Option.some.injEq] at h
    simp [h]
  | x :: y :: t, a => by
    intro h
    rw [List.getLast?_cons_cons] at h
    exact List.mem_cons_of_mem x (getLast?_mem_of_eq (y :: t) a h)

theorem getLast?_eq_none_iff_nil {α : Type} (l : List α) :
    l.getLast? = none ↔ l = [] := by
  cases l with
  | nil => simp
  | cons x t =>
    simp only [List.cons_ne_nil, iff_false]
    cases h : (x :: t).getLast? with
    | some a => simp
    | none =>
      exfalso
      have : x ∈ x :: t := List.mem_cons_self x t
      revert h
      cases t with
      | nil => simp
      | cons y s =>
        rw [List.getLast?_cons_cons]
        cases h2 : (y :: s).getLast? with
        | some b => simp
        | none =>
          exfalso
          have := (getLast?_eq_none_iff_nil (y :: s)).mp h2
          cases this

/-- Claim C10: each type present in the records maps to exactly 7 cells, one
per consecutive UTC calendar day from the start day; a cell is populated
(`hasData = true`, carrying the value and comment of a record) iff some
record of that type falls on that UTC day, and empty otherwise; types absent
from the records produce no grid at all. -/
theorem grid_C10 (records : List BodyStatRecord) (startDay : ℤ) (t : String) :
    (t ∈ typesOf records ↔ ∃ r ∈ records, r.type = t)
    ∧ ((∃ r ∈ records, r.type = t) →
        gridLookup (groupedBodyStats records startDay) t
          = some ((List.range 7).map (fun (i : ℕ) => mkCell records t (startDay + (i : ℤ)))))
    ∧ (¬ (∃ r ∈ records, r.type = t) →
        gridLookup (groupedBodyStats records startDay) t = none)
    ∧ ((List.range 7).map (fun (i : ℕ) => mkCell records t (startDay + (i : ℤ)))).length = 7
    ∧ (∀ d : ℤ, (mkCell records t d).day = d)
    ∧ (∀ d : ℤ, ((mkCell records t d).hasData = true
        ↔ ∃ r ∈ records, r.type = t ∧ epochDay r.epoch = d))
    ∧ (∀ d : ℤ, (mkCell records t d).hasData = true →
        ∃ r ∈ records, r.type = t ∧ epochDay r.epoch = d
          ∧ (mkCell records t d).comment = r.comment
          ∧ (mkCell records t d).value
              = (if r.value.isEmpty then none else some r.value))
    ∧ (∀ d : ℤ, (mkCell records t d).hasData = false →
        (mkCell records t d).value = none ∧ (mkCell records t d).comment = []) := by
  refine ⟨typesOf_mem records t, ?_, ?_,
    by rw [List.length_map, List.length_range], ?_, ?_, ?_, ?_⟩
  · intro h
    unfold gridLookup groupedBodyStats
    exact gridLookup_map_of_mem (typesOf records) _ t ((typesOf_mem records t).mpr h)
  · intro h
    unfold gridLookup groupedBodyStats
    exact gridLookup_map_of_not_mem (typesOf records) _ t
      (fun hmem => h ((typesOf_mem records t).mp hmem))
  · intro d
    unfold mkCell
    cases h : lastRecordFor records t d <;> rfl
  · intro d
    unfold mkCell
    cases h : lastRecordFor records t d with
    | some it =>
      refine iff_of_true rfl ?_
      have hmem := getLast?_mem_of_eq _ it h
      rw [List.mem_filter] at hmem
      have hp := of_decide_eq_true hmem.2
      exact ⟨it, hmem.1, hp⟩
    | none =>
      refine iff_of_false (by simp) ?_
      rintro ⟨r, hr, hrt, hrd⟩
      have hfil : (records.filter
          (fun r => decide (r.type = t ∧ epochDay r.epoch = d))) = [] :=
        (getLast?_eq_none_iff_nil _).mp h
      have : r ∈ records.filter
          (fun r => decide (r.type = t ∧ epochDay r.epoch = d)) :=
        List.mem_filter.mpr ⟨hr, decide_eq_true ⟨hrt, hrd⟩⟩
      rw [hfil] at this
      cases this
  · intro d
    unfold mkCell
    cases h : lastRecordFor records t d with
    | some it =>
      intro _
      have hmem := getLast?_mem_of_eq _ it h
      rw [List.mem_filter] at hmem
      have hp := of_decide_eq_true hmem.2
      exact ⟨it, hmem.1, hp.1, hp.2, rfl, rfl⟩
    | none =>
      intro hfalse
      cases hfalse
  · intro d
    unfold mkCell
    cases h : lastRecordFor records t d with
    | some it =>
      intro hfalse
      cases hfalse
    | none =>
      intro _
      exact ⟨rfl, rfl⟩

/-- Witness for C10: a single record of type `"Peso"` on UTC day 1, weekly
grid from day 0. -/
theorem grid_C10_witness :
    (∃ r ∈ ([⟨"Peso", "80".data, [], 86400000⟩] : List BodyStatRecord),
      r.type = "Peso")
    ∧ gridLookup (groupedBodyStats [⟨"Peso", "80".data, [], 86400000⟩] 0) "Peso"
        = some ((List.range 7).map (fun i =>
            mkCell [⟨"Peso", "80".data, [], 86400000⟩] "Peso" ((0 : ℤ) + (i : ℤ)))) :=
  ⟨⟨⟨"Peso", "80".data, [], 86400000⟩, by decide, rfl⟩,
   (grid_C10 [⟨"Peso", "80".data, [], 86400000⟩] 0 "Peso").2.1 (by decide)⟩
